import Mathlib

/-!
Shallow embedding of the certificate-management operator
(api/v1alpha1/certificate_types.go and the controller file).

Go `time.Time` and `time.Duration` are both int64 nanosecond counts; we model
them as unbounded `Int` (the magnitudes appearing in this development stay far
below 2^63, and `ParseDuration` itself carries the source's explicit 2^63
overflow guards).
-/

namespace CertOp

abbrev GoDuration := Int
abbrev GoTime := Int

def Nanosecond : GoDuration := 1
def Microsecond : GoDuration := 1000
def Millisecond : GoDuration := 1000000
def Second : GoDuration := 1000000000
def Minute : GoDuration := 60 * Second
def Hour : GoDuration := 60 * Minute

/-! ## Go `time.ParseDuration`

Faithful embedding of Go's `time.ParseDuration` (stdlib `time/format.go`),
which the source calls on `spec.Duration` and `spec.RenewBefore`.
`none` models a parse error.  The only deviation: for fractional components Go
computes `uint64(float64(f) * (float64(unit) / scale))` in float64; we compute
the exact rational floor `f * unit / scale`.  No claim depends on fractional
duration strings. -/

/-- Go's `unitMap`: nanosecond counts per unit suffix. -/
def unitMap : String → Option Nat
  | "ns" => some 1
  | "us" => some 1000
  | "µs" => some 1000
  | "μs" => some 1000
  | "ms" => some 1000000
  | "s" => some 1000000000
  | "m" => some 60000000000
  | "h" => some 3600000000000
  | _ => none

/-- Go's `leadingInt`: consume leading decimal digits into an accumulator,
erroring out past 2^63 exactly as the source does. -/
def leadingInt : List Char → Nat → Option (Nat × List Char)
  | [], x => some (x, [])
  | c :: s, x =>
    if c < '0' ∨ '9' < c then some (x, c :: s)
    else if x > 2 ^ 63 / 10 then none
    else
      let y := x * 10 + (c.toNat - '0'.toNat)
      if y > 2 ^ 63 then none
      else leadingInt s y

/-- Go's `leadingFraction`: consume digits after the decimal point, returning
the digits' value, the power-of-ten scale, and the rest; once overflow is hit
further digits are consumed but ignored, exactly as in the source. -/
def leadingFraction : List Char → Nat → Nat → Bool → Nat × Nat × List Char
  | [], x, scale, _ => (x, scale, [])
  | c :: s, x, scale, overflow =>
    if c < '0' ∨ '9' < c then (x, scale, c :: s)
    else if overflow then leadingFraction s x scale overflow
    else if x > (2 ^ 63 - 1) / 10 then leadingFraction s x scale true
    else
      let y := x * 10 + (c.toNat - '0'.toNat)
      if y > 2 ^ 63 then leadingFraction s x scale true
      else leadingFraction s y (scale * 10) overflow

/-- The maximal run of non-digit, non-dot characters: the unit suffix of one
`ParseDuration` component. -/
def takeUnit : List Char → List Char × List Char
  | [] => ([], [])
  | c :: s =>
    if c = '.' ∨ ('0' ≤ c ∧ c ≤ '9') then ([], c :: s)
    else
      let (u, rest) := takeUnit s
      (c :: u, rest)

/-- The main loop of `ParseDuration`, one `(digits)(.digits)?unit` component
per iteration, accumulating nanoseconds in `d`.  Each iteration consumes at
least one character, so fuel `length + 1` never runs out; the fuel argument
only serves Lean's termination checker. -/
def parseLoop : Nat → List Char → Nat → Option Nat
  | _, [], d => some d
  | 0, _ :: _, _ => none
  | fuel + 1, c :: s0, d =>
    if ¬(c = '.' ∨ ('0' ≤ c ∧ c ≤ '9')) then none
    else
      match leadingInt (c :: s0) 0 with
      | none => none
      | some (v, s1) =>
        let pre : Bool := s1.length != (c :: s0).length
        let fres : Nat × Nat × List Char × Bool :=
          match s1 with
          | '.' :: s1tail =>
            let (f, scale, s2) := leadingFraction s1tail 0 1 false
            (f, scale, s2, s2.length != s1tail.length)
          | _ => (0, 1, s1, false)
        match fres with
        | (f, scale, s2, post) =>
          if !pre && !post then none
          else
            match takeUnit s2 with
            | (u, s3) =>
              if u.isEmpty then none
              else
                match unitMap (String.mk u) with
                | none => none
                | some unit =>
                  if v > 2 ^ 63 / unit then none
                  else
                    let v1 := v * unit
                    let v2 := if f > 0 then v1 + f * unit / scale else v1
                    if v2 > 2 ^ 63 then none
                    else
                      let d1 := d + v2
                      if d1 > 2 ^ 63 then none
                      else parseLoop fuel s3 d1

/-- Go `time.ParseDuration`: sign, the `"0"` special case, then the component
loop; a bare sign or empty string is an error, and a non-negative total above
2^63 − 1 is an error. -/
def parseDuration (str : String) : Option GoDuration :=
  let s0 := str.toList
  let signed : Bool × List Char :=
    match s0 with
    | '-' :: rest => (true, rest)
    | '+' :: rest => (false, rest)
    | _ => (false, s0)
  match signed with
  | (neg, s) =>
    if s = ['0'] then some 0
    else if s.isEmpty then none
    else
      match parseLoop (s.length + 1) s 0 with
      | none => none
      | some d =>
        if neg then some (-(d : Int))
        else if d > 2 ^ 63 - 1 then none
        else some ((d : Int))

example : parseDuration "720h" = some (720 * Hour) := by decide
example : parseDuration "2160h" = some (2160 * Hour) := by decide
example : parseDuration "-24h" = some (-(24 * Hour)) := by decide
example : parseDuration "0s" = some 0 := by decide
example : parseDuration "" = none := by rfl
example : parseDuration "garbage" = none := by decide
example : parseDuration "1h30m" = some (90 * Minute) := by decide

/-! ## Data model (api/v1alpha1/certificate_types.go) -/

/-- `IssuerRef` from certificate_types.go. -/
structure IssuerRef where
  name : String
  kind : String
deriving DecidableEq

/-- `CertificateSpec` from certificate_types.go. -/
structure CertificateSpec where
  commonName : String
  dnsNames : List String
  ipAddresses : List String
  secretName : String
  duration : String
  renewBefore : String
  issuerRef : IssuerRef
  restartDeployments : Bool
deriving DecidableEq

/-- `metav1.Condition`: type, status, reason, message, last transition time. -/
structure Condition where
  ctype : String
  cstatus : Bool
  reason : String
  message : String
  lastTransitionTime : GoTime
deriving DecidableEq

/-- `CertificateStatus` from certificate_types.go; `none` models a nil
pointer. -/
structure CertificateStatus where
  conditions : List Condition
  notBefore : Option GoTime
  notAfter : Option GoTime
  renewalTime : Option GoTime
  serialNumber : String
  lastRenewalTime : Option GoTime
deriving DecidableEq

/-- The slice of `metav1.ObjectMeta` the controller reads and writes:
name, namespace, finalizers, deletion timestamp. -/
structure ObjectMeta where
  name : String
  nspace : String
  finalizers : List String
  deletionTimestamp : Option GoTime
deriving DecidableEq

/-- The `Certificate` resource. -/
structure Certificate where
  metadata : ObjectMeta
  spec : CertificateSpec
  status : CertificateStatus
deriving DecidableEq

/-! ## Renewal policy (controller file) -/

def certificateFinalizer : String := "cert.example.com/finalizer"
def typeAvailableCert : String := "Available"
def typeReadyCert : String := "Ready"

/-- `needsRenewal`: nil renewal time means initial issuance is due; otherwise
due exactly when `time.Now().After(renewalTime)`, i.e. strictly after. -/
def needsRenewal (cert : Certificate) (now : GoTime) : Bool :=
  match cert.status.renewalTime with
  | none => true
  | some t => decide (t < now)

/-- `calculateRenewalTime`: renew-before defaults to 30 days, a non-empty
`spec.RenewBefore` that parses overrides it (a parse error keeps the
default); the renewal time is `notAfter - renewBefore`. -/
def calculateRenewalTime (cert : Certificate) (notAfter : GoTime) : GoTime :=
  let renewBefore : GoDuration := 30 * 24 * Hour
  let renewBefore :=
    if cert.spec.renewBefore ≠ "" then
      match parseDuration cert.spec.renewBefore with
      | some duration => duration
      | none => renewBefore
    else renewBefore
  notAfter - renewBefore

/-- `getRequeueTime`: a fixed minute when no renewal time is recorded or it
is already past; half the remaining window under an hour; otherwise one hour
before the renewal time.  (`time.Until(t)` is `t - now`; the division is on a
non-negative value, where Go's truncating division and Lean's `Int` division
agree.) -/
def getRequeueTime (cert : Certificate) (now : GoTime) : GoDuration :=
  match cert.status.renewalTime with
  | none => Minute
  | some t =>
    let timeUntilRenewal := t - now
    if timeUntilRenewal < 0 then Minute
    else if timeUntilRenewal < Hour then timeUntilRenewal / 2
    else timeUntilRenewal - Hour

/-- `generateCertificate`'s error cases.  Only the duration parse failure is
deterministic; key, serial and x509 encoding failures depend on the entropy
source and are outside this deterministic model. -/
inductive GenError
  | invalidDuration
deriving DecidableEq

/-- The deterministic validity-window portion of `generateCertificate`:
duration defaults to `90 * 24 * time.Hour`, a non-empty `spec.Duration` must
parse or generation fails with the invalid-duration error; `notBefore` is the
current time and `notAfter` is `notBefore.Add(duration)`.  Key-pair, serial
number, SAN and PEM construction draw fresh entropy and do not affect the
window; the model treats them as succeeding. -/
def generateCertificate (cert : Certificate) (now : GoTime) :
    Except GenError (GoTime × GoTime) :=
  let duration : GoDuration := 90 * 24 * Hour
  let parsed : Except GenError GoDuration :=
    if cert.spec.duration ≠ "" then
      match parseDuration cert.spec.duration with
      | some d => .ok d
      | none => .error .invalidDuration
    else .ok duration
  match parsed with
  | .error e => .error e
  | .ok duration =>
    let notBefore := now
    let notAfter := notBefore + duration
    .ok (notBefore, notAfter)

def specBase : CertificateSpec :=
  { commonName := "myapp.example.com"
    dnsNames := []
    ipAddresses := []
    secretName := "myapp-tls"
    duration := "2160h"
    renewBefore := "720h"
    issuerRef := { name := "selfsigned-issuer", kind := "SelfSigned" }
    restartDeployments := false }

def metaBase : ObjectMeta :=
  { name := "certificate-sample"
    nspace := "default"
    finalizers := []
    deletionTimestamp := none }

def statusBase : CertificateStatus :=
  { conditions := []
    notBefore := none
    notAfter := none
    renewalTime := none
    serialNumber := ""
    lastRenewalTime := none }

def certBase : Certificate :=
  { metadata := metaBase, spec := specBase, status := statusBase }

example : needsRenewal certBase 0 = true := by decide
example :
    needsRenewal
      { certBase with status := { statusBase with renewalTime := some 5 } } 5 = false := by
  decide
example : calculateRenewalTime certBase 1000 = 1000 - 720 * Hour := by decide
example :
    calculateRenewalTime
      { certBase with spec := { specBase with renewBefore := "0s" } } 1000 = 1000 := by
  decide
example : getRequeueTime certBase 0 = Minute := by decide
example :
    getRequeueTime
      { certBase with status := { statusBase with renewalTime := some (30 * Minute) } } 0
      = 15 * Minute := by decide
example : generateCertificate certBase 7 = .ok (7, 7 + 2160 * Hour) := by rfl
example :
    generateCertificate
      { certBase with spec := { specBase with duration := "-24h" } } 0
      = .ok (0, -(24 * Hour)) := by rfl
example :
    generateCertificate
      { certBase with spec := { specBase with duration := "bogus" } } 0
      = .error .invalidDuration := by rfl

/-! ## Secret synchronizer (`createOrUpdateSecret`) -/

/-- The slice of `corev1.Secret` the controller reads and writes.  `ownerRef`
models the controller owner reference set by `ctrl.SetControllerReference`
(identified by the owning certificate's name). -/
structure Secret where
  name : String
  nspace : String
  labels : List (String × String)
  stype : String
  data : List (String × List Nat)
  ownerRef : Option String
deriving DecidableEq

/-- Which write `createOrUpdateSecret` performed, and the object it wrote. -/
inductive SecretWrite
  | created (s : Secret)
  | updated (s : Secret)
deriving DecidableEq

/-- The secret literal built at the top of `createOrUpdateSecret`, after
`SetControllerReference`. -/
def desiredSecret (cert : Certificate) (certPEM keyPEM : List Nat) : Secret :=
  { name := cert.spec.secretName
    nspace := cert.metadata.nspace
    labels := [("app.kubernetes.io/managed-by", "certificate-operator"),
               ("cert.example.com/certificate", cert.metadata.name)]
    stype := "kubernetes.io/tls"
    data := [("tls.crt", certPEM), ("tls.key", keyPEM)]
    ownerRef := some cert.metadata.name }

/-- Whether a stored secret has the given namespaced name. -/
def secretKeyIs (nspace name : String) (s : Secret) : Bool :=
  s.nspace == nspace && s.name == name

/-- The external store's secrets, as the list of stored objects; `r.Get` is
lookup by namespaced name. -/
def getSecret (store : List Secret) (nspace name : String) : Option Secret :=
  store.find? (secretKeyIs nspace name)

/-- `r.Update` on a secret: replace the stored object with that namespaced
name. -/
def putSecret (store : List Secret) (s : Secret) : List Secret :=
  store.map (fun t => if secretKeyIs s.nspace s.name t then s else t)

/-- `createOrUpdateSecret`: build the desired secret; if none exists under
that namespaced name, create it; otherwise overwrite the existing object's
`Data` and `Labels` in place (preserving its other fields) and update it. -/
def createOrUpdateSecret (cert : Certificate) (certPEM keyPEM : List Nat)
    (store : List Secret) : SecretWrite × List Secret :=
  let secret := desiredSecret cert certPEM keyPEM
  match getSecret store secret.nspace secret.name with
  | none => (.created secret, store ++ [secret])
  | some existingSecret =>
    let existingSecret :=
      { existingSecret with data := secret.data, labels := secret.labels }
    (.updated existingSecret, putSecret store existingSecret)

/-- How many stored secrets carry the given namespaced name. -/
def countSecrets (store : List Secret) (nspace name : String) : Nat :=
  (store.filter (secretKeyIs nspace name)).length

/-! ## Dependent workload correlator (`restartDeployments`,
`deploymentUsesSecret`) -/

/-- `corev1.SecretVolumeSource`: the secret name backing a volume. -/
structure SecretVolumeSource where
  secretName : String
deriving DecidableEq

/-- `corev1.Volume` restricted to the field the correlator reads. -/
structure Volume where
  secret : Option SecretVolumeSource
deriving DecidableEq

/-- `corev1.SecretEnvSource` inside an `EnvFromSource`. -/
structure SecretEnvSource where
  name : String
deriving DecidableEq

/-- `corev1.EnvFromSource` restricted to its secret reference. -/
structure EnvFromSource where
  secretRef : Option SecretEnvSource
deriving DecidableEq

/-- `corev1.SecretKeySelector`: the secret a single env var is drawn from. -/
structure SecretKeySelector where
  name : String
deriving DecidableEq

/-- `corev1.EnvVarSource` restricted to its secret key reference. -/
structure EnvVarSource where
  secretKeyRef : Option SecretKeySelector
deriving DecidableEq

/-- `corev1.EnvVar` restricted to its `ValueFrom`. -/
structure EnvVar where
  valueFrom : Option EnvVarSource
deriving DecidableEq

/-- `corev1.Container` restricted to `EnvFrom` and `Env`. -/
structure Container where
  envFrom : List EnvFromSource
  env : List EnvVar
deriving DecidableEq

/-- The deployment pod template: its metadata annotations (a nil map is
`none`, as in Go) and pod spec. -/
structure PodTemplate where
  annots : Option (List (String × String))
  volumes : List Volume
  containers : List Container
deriving DecidableEq

/-- `appsv1.Deployment` restricted to what the correlator reads/writes. -/
structure Deployment where
  name : String
  template : PodTemplate
deriving DecidableEq

/-- Go map assignment `m[k] = v` on an association-list model: replace the
binding if the key exists, else append it. -/
def mapSet (m : List (String × String)) (k v : String) : List (String × String) :=
  if m.any (fun kv => kv.1 == k) then
    m.map (fun kv => if kv.1 == k then (k, v) else kv)
  else m ++ [(k, v)]

/-- `deploymentUsesSecret`: a volume backed by the secret, a container
importing it as an env block, or a container env var sourced from one of its
keys. -/
def deploymentUsesSecret (deploy : Deployment) (secretName : String) : Bool :=
  deploy.template.volumes.any (fun volume =>
    match volume.secret with
    | some src => src.secretName == secretName
    | none => false)
  || deploy.template.containers.any (fun container =>
      container.envFrom.any (fun envFrom =>
        match envFrom.secretRef with
        | some ref => ref.name == secretName
        | none => false)
      || container.env.any (fun env =>
          match env.valueFrom with
          | some vf =>
            match vf.secretKeyRef with
            | some sel => sel.name == secretName
            | none => false
          | none => false))

/-- The annotation write inside `restartDeployments`: make the nil
annotation map, then set `cert.example.com/restartedAt` to the formatted
current time. -/
def setRestartAnnot (deploy : Deployment) (ts : String) : Deployment :=
  let annots :=
    match deploy.template.annots with
    | none => []
    | some m => m
  { deploy with template :=
      { deploy.template with
        annots := some (mapSet annots "cert.example.com/restartedAt" ts) } }

/-- The loop of `restartDeployments` over the listed deployments: each one
that uses the secret gets the restart annotation and an `r.Update`; a failed
update (`updFails`) is logged and skipped via `continue`, leaving the stored
object unchanged and the counter untouched.  Returns the stored deployments
after the loop and `restartedCount`. -/
def restartDeployments (secretName ts : String) (updFails : Deployment → Bool) :
    List Deployment → List Deployment × Nat
  | [] => ([], 0)
  | deploy :: rest =>
    let (restOut, n) := restartDeployments secretName ts updFails rest
    if deploymentUsesSecret deploy secretName then
      if updFails deploy then (deploy :: restOut, n)
      else (setRestartAnnot deploy ts :: restOut, n + 1)
    else (deploy :: restOut, n)

/-- The stored deployments that successfully received the restart annotation,
in list order — one `r.Update` effect per counted deployment. -/
def restartEffectList (secretName ts : String) (updFails : Deployment → Bool) :
    List Deployment → List Deployment
  | [] => []
  | deploy :: rest =>
    if deploymentUsesSecret deploy secretName && !updFails deploy then
      setRestartAnnot deploy ts :: restartEffectList secretName ts updFails rest
    else restartEffectList secretName ts updFails rest

/-! ## Reconciliation controller (`Reconcile`) -/

/-- `controllerutil.ContainsFinalizer` at the certificate's finalizer. -/
def containsFinalizer (cert : Certificate) : Bool :=
  cert.metadata.finalizers.contains certificateFinalizer

/-- `controllerutil.AddFinalizer`: append the finalizer (only called on the
absent path, where it reports success). -/
def addFinalizer (cert : Certificate) : Certificate :=
  { cert with metadata :=
      { cert.metadata with
        finalizers := cert.metadata.finalizers ++ [certificateFinalizer] } }

/-- `controllerutil.RemoveFinalizer`: drop every occurrence of the
finalizer. -/
def removeFinalizer (cert : Certificate) : Certificate :=
  { cert with metadata :=
      { cert.metadata with
        finalizers := cert.metadata.finalizers.filter
          (fun f => f != certificateFinalizer) } }

/-- `meta.SetStatusCondition` from apimachinery: upsert by condition type;
reason and message are always overwritten, the transition time only when the
boolean status actually changed. -/
def setStatusCondition (conds : List Condition) (newCond : Condition) :
    List Condition :=
  if conds.any (fun c => c.ctype == newCond.ctype) then
    conds.map (fun c =>
      if c.ctype == newCond.ctype then
        { newCond with lastTransitionTime :=
            if c.cstatus == newCond.cstatus then c.lastTransitionTime
            else newCond.lastTransitionTime }
      else c)
  else conds ++ [newCond]

/-- One write issued against the external store during a reconciliation. -/
inductive Effect
  | certUpdate (c : Certificate)
  | statusUpdate (s : CertificateStatus)
  | secretCreate (s : Secret)
  | secretUpdate (s : Secret)
  | deployUpdate (d : Deployment)
deriving DecidableEq

/-- `ctrl.Result`. -/
structure CtrlResult where
  requeue : Bool := false
  requeueAfter : GoDuration := 0
deriving DecidableEq

/-- What `Reconcile` returns to the scheduler: a result, or an error
(triggering the scheduler's retry with backoff). -/
inductive Outcome
  | ok (r : CtrlResult)
  | err
deriving DecidableEq

/-- The extra-certificate inputs of one reconciliation: the clock (`now` and
its RFC3339 rendering `nowStr`), the store contents, and the oracles for the
non-deterministic pieces — whether the deployment list call fails, which
per-deployment updates fail, and the entropy-derived generator outputs (PEM
payloads and serial). -/
structure ReconcileEnv where
  now : GoTime
  nowStr : String
  store : List Secret
  deployments : List Deployment
  listFails : Bool
  updFails : Deployment → Bool
  certPEM : List Nat
  keyPEM : List Nat
  serial : String

/-- `Reconcile` (the body after a successful `r.Get`), as the list of store
writes it issues plus its outcome.  Faithful to the source's order: the
finalizer is added and persisted whenever absent — before the deletion
check; a deleting certificate with the finalizer gets one finalizer-removal
update; otherwise, if renewal is due, generation failure records a Ready=false
condition and errors out, success writes the secret, writes the status as one
unit, optionally annotates dependent deployments (a correlator failure is
only logged), and the invocation requeues after `getRequeueTime` computed on
the updated status.  Writes that the claims do not exercise as failing
(certificate, status and secret updates) are modelled as succeeding. -/
def Reconcile (cert : Certificate) (env : ReconcileEnv) : List Effect × Outcome :=
  let withFin : List Effect × Certificate :=
    if !containsFinalizer cert then
      let cert := addFinalizer cert
      ([Effect.certUpdate cert], cert)
    else ([], cert)
  match withFin with
  | (preEffects, cert) =>
    if cert.metadata.deletionTimestamp.isSome then
      if containsFinalizer cert then
        let cert := removeFinalizer cert
        (preEffects ++ [Effect.certUpdate cert], .ok {})
      else (preEffects, .ok {})
    else if needsRenewal cert env.now then
      match generateCertificate cert env.now with
      | .error _ =>
        let readyFalse : Condition :=
          { ctype := typeReadyCert, cstatus := false
            reason := "GenerationFailed"
            message := "Failed to generate certificate"
            lastTransitionTime := env.now }
        let failedConds := setStatusCondition cert.status.conditions readyFalse
        let failed := { cert.status with conditions := failedConds }
        (preEffects ++ [Effect.statusUpdate failed], .err)
      | .ok (notBefore, notAfter) =>
        let write := (createOrUpdateSecret cert env.certPEM env.keyPEM env.store).1
        let secretEffect :=
          match write with
          | .created s => Effect.secretCreate s
          | .updated s => Effect.secretUpdate s
        let newStatus :=
          { cert.status with
            notBefore := some notBefore
            notAfter := some notAfter
            renewalTime := some (calculateRenewalTime cert notAfter)
            serialNumber := env.serial
            lastRenewalTime := some env.now }
        let readyTrue : Condition :=
          { ctype := typeReadyCert, cstatus := true
            reason := "CertificateIssued"
            message := "Certificate has been issued successfully"
            lastTransitionTime := env.now }
        let availableTrue : Condition :=
          { ctype := typeAvailableCert, cstatus := true
            reason := "Reconciling"
            message := "Certificate issued successfully"
            lastTransitionTime := env.now }
        let newConds :=
          setStatusCondition (setStatusCondition newStatus.conditions readyTrue) availableTrue
        let newStatus := { newStatus with conditions := newConds }
        let cert := { cert with status := newStatus }
        let deployEffects :=
          if cert.spec.restartDeployments then
            if env.listFails then []
            else
              (restartEffectList cert.spec.secretName env.nowStr env.updFails
                env.deployments).map Effect.deployUpdate
          else []
        (preEffects ++ [secretEffect, Effect.statusUpdate newStatus] ++ deployEffects,
         .ok { requeueAfter := getRequeueTime cert env.now })
    else (preEffects, .ok { requeueAfter := getRequeueTime cert env.now })

/-- A baseline environment for concrete runs. -/
def envBase : ReconcileEnv :=
  { now := 0
    nowStr := "1970-01-01T00:00:00Z"
    store := []
    deployments := []
    listFails := false
    updFails := fun _ => false
    certPEM := [1]
    keyPEM := [2]
    serial := "ab12" }

def certDelFin : Certificate :=
  { certBase with metadata :=
      { metaBase with deletionTimestamp := some 0, finalizers := [certificateFinalizer] } }

def certDelNoFin : Certificate :=
  { certBase with metadata := { metaBase with deletionTimestamp := some 0 } }

example :
    Reconcile certDelFin envBase
      = ([Effect.certUpdate (removeFinalizer certDelFin)], .ok {}) := by decide

example :
    Reconcile certDelNoFin envBase
      = ([Effect.certUpdate (addFinalizer certDelNoFin),
          Effect.certUpdate (removeFinalizer (addFinalizer certDelNoFin))], .ok {}) := by decide

/-! ## Claims about the renewal policy and the generator -/

/-- Lookup form of `getRequeueTime` when a renewal time is recorded. -/
lemma getRequeueTime_some (cert : Certificate) (now t : GoTime)
    (h : cert.status.renewalTime = some t) :
    getRequeueTime cert now =
      if t - now < 0 then Minute
      else if t - now < Hour then (t - now) / 2
      else (t - now) - Hour := by
  simp [getRequeueTime, h]

/-- Claim C1 (amended): `needsRenewal` is true when no renewal timestamp is
recorded, and otherwise exactly when the current time is strictly greater
than the recorded renewal timestamp — at the exact renewal instant it is
still false. -/
theorem needsRenewal_iff_strictly_after (cert : Certificate) (now : GoTime) :
    needsRenewal cert now = true ↔
      cert.status.renewalTime = none ∨
        ∃ t, cert.status.renewalTime = some t ∧ t < now := by
  cases h : cert.status.renewalTime with
  | none => simp [needsRenewal, h]
  | some t => simp [needsRenewal, h]

def certAtInstant : Certificate :=
  { certBase with status := { statusBase with renewalTime := some 0 } }

/-- Claim C1 counterexample: at the exact recorded renewal instant
(`now = renewalTime`) the code returns false, where the claim requires
true. -/
theorem needsRenewal_false_at_exact_instant :
    certAtInstant.status.renewalTime = some 0 ∧
      needsRenewal certAtInstant 0 = false := by decide

/-- Claim C2: the requeue delay is the stated piecewise function of the
recorded renewal timestamp, including the three quoted examples. -/
theorem getRequeueTime_piecewise (cert : Certificate) (now : GoTime) :
    (cert.status.renewalTime = none → getRequeueTime cert now = Minute) ∧
    (∀ t, cert.status.renewalTime = some t →
      (t - now < 0 → getRequeueTime cert now = Minute) ∧
      (0 ≤ t - now → t - now < Hour → getRequeueTime cert now = (t - now) / 2) ∧
      (Hour ≤ t - now → getRequeueTime cert now = (t - now) - Hour)) ∧
    getRequeueTime
      { cert with status := { cert.status with renewalTime := some (now + 30 * Minute) } }
      now = 15 * Minute ∧
    getRequeueTime
      { cert with status := { cert.status with renewalTime := some (now + 5 * Hour) } }
      now = 4 * Hour ∧
    getRequeueTime
      { cert with status := { cert.status with renewalTime := some (now - Hour) } }
      now = Minute := by
  refine ⟨fun h => by simp [getRequeueTime, h], fun t h => ?_, ?_, ?_, ?_⟩
  · rw [getRequeueTime_some cert now t h]
    have hHourPos : (0 : GoDuration) < Hour := by norm_num [Hour, Minute, Second]
    refine ⟨fun hlt => by rw [if_pos hlt], fun h0 hH => ?_, fun hH => ?_⟩
    · rw [if_neg (by linarith), if_pos hH]
    · rw [if_neg (by linarith), if_neg (by linarith)]
  · rw [getRequeueTime_some _ now (now + 30 * Minute) (by simp)]
    have h1 : now + 30 * Minute - now = 30 * Minute := by ring
    rw [h1]
    norm_num [Minute, Hour, Second]
  · rw [getRequeueTime_some _ now (now + 5 * Hour) (by simp)]
    have h1 : now + 5 * Hour - now = 5 * Hour := by ring
    rw [h1]
    norm_num [Minute, Hour, Second]
  · rw [getRequeueTime_some _ now (now - Hour) (by simp)]
    have h1 : now - Hour - now = -Hour := by ring
    rw [h1]
    norm_num [Minute, Hour, Second]

/-- Claim C2 witness at a concrete input: no renewal time recorded gives the
fixed one-minute delay. -/
theorem getRequeueTime_piecewise_witness :
    certBase.status.renewalTime = none ∧ getRequeueTime certBase 0 = Minute :=
  ⟨rfl, (getRequeueTime_piecewise certBase 0).1 rfl⟩

/-- Claim C3 (amended): the renewal timestamp is `notAfter` minus the
effective renew-before (default 720h on empty or unparsable input), and it is
strictly below `notAfter` exactly when that effective duration is positive —
in particular for the default, but not when `RenewBefore` parses to zero or a
negative duration. -/
theorem calculateRenewalTime_lt_notAfter (cert : Certificate) (notAfter : GoTime) :
    (cert.spec.renewBefore = "" ∨ parseDuration cert.spec.renewBefore = none →
      calculateRenewalTime cert notAfter = notAfter - 720 * Hour ∧
        calculateRenewalTime cert notAfter < notAfter) ∧
    (∀ d, cert.spec.renewBefore ≠ "" → parseDuration cert.spec.renewBefore = some d →
      calculateRenewalTime cert notAfter = notAfter - d ∧
        (0 < d → calculateRenewalTime cert notAfter < notAfter)) := by
  constructor
  · intro h
    have hcalc : calculateRenewalTime cert notAfter = notAfter - 30 * 24 * Hour := by
      rcases h with h | h
      · simp [calculateRenewalTime, h]
      · by_cases he : cert.spec.renewBefore = ""
        · simp [calculateRenewalTime, he]
        · simp [calculateRenewalTime, he, h]
    rw [hcalc]
    constructor
    · norm_num [Hour, Minute, Second]
    · norm_num [Hour, Minute, Second]
  · intro d hne hparse
    have hcalc : calculateRenewalTime cert notAfter = notAfter - d := by
      simp [calculateRenewalTime, hne, hparse]
    rw [hcalc]
    exact ⟨rfl, fun hd => by linarith⟩

/-- Claim C3 witness: the base spec's `"720h"` renew-before parses to a
positive duration, so the renewal timestamp lands strictly before
`notAfter`. -/
theorem calculateRenewalTime_lt_notAfter_witness :
    certBase.spec.renewBefore ≠ "" ∧
      parseDuration certBase.spec.renewBefore = some (720 * Hour) ∧
      (calculateRenewalTime certBase 0 = 0 - 720 * Hour ∧
        (0 < (720 * Hour : GoDuration) → calculateRenewalTime certBase 0 < 0)) :=
  ⟨by decide, by decide,
    (calculateRenewalTime_lt_notAfter certBase 0).2 (720 * Hour) (by decide) (by decide)⟩

def certZeroRenewBefore : Certificate :=
  { certBase with spec := { specBase with renewBefore := "0s" } }

/-- Claim C3 counterexample: a `RenewBefore` of `"0s"` parses to zero, and
the computed renewal timestamp then equals `notAfter` instead of lying
strictly below it. -/
theorem renewalTime_eq_notAfter_on_zero_renewBefore :
    parseDuration "0s" = some 0 ∧
      calculateRenewalTime certZeroRenewBefore 1000 = 1000 ∧
      ¬ calculateRenewalTime certZeroRenewBefore 1000 < 1000 := by decide

def certNoDuration : Certificate :=
  { certBase with spec := { specBase with duration := "" } }

/-- Claim C4 (amended): with an empty duration string the window is the
2160h default and `notBefore < notAfter`; with a parsable duration `d` the
window length is exactly `d`, strictly positive only when `d` is; a
non-empty unparsable duration string fails with the invalid-duration
error. -/
theorem generateCertificate_window (cert : Certificate) (now : GoTime) :
    (cert.spec.duration = "" →
      generateCertificate cert now = .ok (now, now + 2160 * Hour) ∧
        now < now + 2160 * Hour) ∧
    (∀ d, cert.spec.duration ≠ "" → parseDuration cert.spec.duration = some d →
      generateCertificate cert now = .ok (now, now + d) ∧
        (now + d) - now = d ∧ (0 < d → now < now + d)) ∧
    (cert.spec.duration ≠ "" → parseDuration cert.spec.duration = none →
      generateCertificate cert now = .error .invalidDuration) := by
  refine ⟨fun h => ?_, fun d hne hparse => ?_, fun hne hparse => ?_⟩
  · constructor
    · simp only [generateCertificate, h]
      norm_num [Hour, Minute, Second]
    · norm_num [Hour, Minute, Second]
  · refine ⟨by simp [generateCertificate, hne, hparse], by ring_nf, fun hd => by linarith⟩
  · simp [generateCertificate, hne, hparse]

/-- Claim C4 witness: an empty duration string yields the default 2160h
window with `notBefore < notAfter`. -/
theorem generateCertificate_window_witness :
    certNoDuration.spec.duration = "" ∧
      (generateCertificate certNoDuration 0 = .ok (0, 0 + 2160 * Hour) ∧
        (0 : GoTime) < 0 + 2160 * Hour) :=
  ⟨rfl, (generateCertificate_window certNoDuration 0).1 rfl⟩

def certNegDuration : Certificate :=
  { certBase with spec := { specBase with duration := "-24h" } }

/-- Claim C4 counterexample: the duration string `"-24h"` parses, generation
succeeds, and the resulting window has `notAfter < notBefore` — so the
claimed `notBefore < notAfter` fails on a valid (schema- and
parseability-wise) spec. -/
theorem generateCertificate_negative_duration_inverted_window :
    parseDuration "-24h" = some (-(24 * Hour)) ∧
      generateCertificate certNegDuration 0 = .ok (0, -(24 * Hour)) ∧
      ¬ ((0 : GoTime) < -(24 * Hour)) :=
  ⟨by decide, by rfl, by decide⟩

/-- Claim C10: the generator never validates positivity of the parsed
duration: any spec whose duration string parses to a zero or negative
duration generates successfully, with an already-expired window
`notAfter ≤ notBefore`. -/
theorem generateCertificate_no_positivity_validation (cert : Certificate)
    (now : GoTime) (d : GoDuration) (hne : cert.spec.duration ≠ "")
    (hparse : parseDuration cert.spec.duration = some d) (hd : d ≤ 0) :
    generateCertificate cert now = .ok (now, now + d) ∧ now + d ≤ now := by
  refine ⟨by simp [generateCertificate, hne, hparse], by linarith⟩

/-- Claim C10 witness: the concrete spec with duration `"-24h"`. -/
theorem generateCertificate_no_positivity_validation_witness :
    certNegDuration.spec.duration ≠ "" ∧
      parseDuration certNegDuration.spec.duration = some (-(24 * Hour)) ∧
      (-(24 * Hour) : GoDuration) ≤ 0 ∧
      (generateCertificate certNegDuration 0 = .ok (0, 0 + -(24 * Hour)) ∧
        (0 : GoTime) + -(24 * Hour) ≤ 0) :=
  ⟨by decide, by decide, by decide,
    generateCertificate_no_positivity_validation certNegDuration 0 (-(24 * Hour))
      (by decide) (by decide) (by decide)⟩

/-! ## Claims about the secret synchronizer -/

@[simp] lemma desiredSecret_nspace (cert : Certificate) (certPEM keyPEM : List Nat) :
    (desiredSecret cert certPEM keyPEM).nspace = cert.metadata.nspace := rfl

@[simp] lemma desiredSecret_name (cert : Certificate) (certPEM keyPEM : List Nat) :
    (desiredSecret cert certPEM keyPEM).name = cert.spec.secretName := rfl

lemma desiredSecret_key (cert : Certificate) (certPEM keyPEM : List Nat) :
    secretKeyIs cert.metadata.nspace cert.spec.secretName
      (desiredSecret cert certPEM keyPEM) = true := by
  simp [secretKeyIs]

/-- The object written on the update path: the existing secret with its data
and labels overwritten from the desired secret. -/
def updSecret (cert : Certificate) (certPEM keyPEM : List Nat) (e : Secret) : Secret :=
  { e with data := (desiredSecret cert certPEM keyPEM).data
           labels := (desiredSecret cert certPEM keyPEM).labels }

lemma updSecret_desired (cert : Certificate) (certPEM keyPEM : List Nat) :
    updSecret cert certPEM keyPEM (desiredSecret cert certPEM keyPEM)
      = desiredSecret cert certPEM keyPEM := rfl

lemma updSecret_key (cert : Certificate) (certPEM keyPEM : List Nat) (e : Secret)
    (h : secretKeyIs cert.metadata.nspace cert.spec.secretName e = true) :
    secretKeyIs cert.metadata.nspace cert.spec.secretName
      (updSecret cert certPEM keyPEM e) = true := by
  simpa [secretKeyIs, updSecret] using h

lemma createOrUpdateSecret_of_absent (cert : Certificate) (certPEM keyPEM : List Nat)
    (store : List Secret)
    (h : getSecret store cert.metadata.nspace cert.spec.secretName = none) :
    createOrUpdateSecret cert certPEM keyPEM store
      = (.created (desiredSecret cert certPEM keyPEM),
         store ++ [desiredSecret cert certPEM keyPEM]) := by
  simp only [createOrUpdateSecret, desiredSecret_nspace, desiredSecret_name, h]

lemma createOrUpdateSecret_of_present (cert : Certificate) (certPEM keyPEM : List Nat)
    (store : List Secret) (e : Secret)
    (h : getSecret store cert.metadata.nspace cert.spec.secretName = some e) :
    createOrUpdateSecret cert certPEM keyPEM store
      = (.updated (updSecret cert certPEM keyPEM e),
         putSecret store (updSecret cert certPEM keyPEM e)) := by
  simp only [createOrUpdateSecret, desiredSecret_nspace, desiredSecret_name, h]
  rfl

lemma putSecret_eq_map (cert : Certificate) (certPEM keyPEM : List Nat) (e : Secret)
    (h1 : e.nspace = cert.metadata.nspace) (h2 : e.name = cert.spec.secretName)
    (l : List Secret) :
    putSecret l (updSecret cert certPEM keyPEM e)
      = l.map (fun t =>
          if secretKeyIs cert.metadata.nspace cert.spec.secretName t then
            updSecret cert certPEM keyPEM e
          else t) := by
  unfold putSecret
  have hn : (updSecret cert certPEM keyPEM e).nspace = cert.metadata.nspace := h1
  have hm : (updSecret cert certPEM keyPEM e).name = cert.spec.secretName := h2
  rw [hn, hm]

lemma find?_append_of_none {α} (p : α → Bool) {l1 : List α} (l2 : List α)
    (h : l1.find? p = none) : (l1 ++ l2).find? p = l2.find? p := by
  rw [List.find?_append, h, Option.none_or]

lemma map_replace_id {α} (p : α → Bool) (s : α) {l : List α}
    (h : ∀ t ∈ l, p t = false) :
    l.map (fun t => if p t then s else t) = l := by
  have hcong : ∀ a ∈ l, (fun t => if p t then s else t) a = id a := by
    intro a ha
    simp [h a ha]
  rw [List.map_congr_left hcong, List.map_id]

lemma find?_map_replace {α} (p : α → Bool) (s : α) (hs : p s = true) :
    ∀ (l : List α) (e : α), l.find? p = some e →
      (l.map (fun t => if p t then s else t)).find? p = some s := by
  intro l
  induction l with
  | nil => intro e h; simp at h
  | cons a l ih =>
    intro e h
    by_cases pa : p a = true
    · simp only [List.map_cons, if_pos pa]
      rw [List.find?_cons_of_pos _ hs]
    · rw [List.find?_cons_of_neg _ pa] at h
      simp only [List.map_cons, if_neg pa]
      rw [List.find?_cons_of_neg _ pa]
      exact ih e h

lemma map_replace_idem {α} (p : α → Bool) (s : α) (l : List α) :
    (l.map (fun t => if p t then s else t)).map (fun t => if p t then s else t)
      = l.map (fun t => if p t then s else t) := by
  rw [List.map_map]
  apply List.map_congr_left
  intro a _
  by_cases pa : p a = true
  · simp [Function.comp_apply, pa, ite_self]
  · simp [Function.comp_apply, pa]

lemma length_filter_map_replace {α} (p : α → Bool) (s : α) (hs : p s = true)
    (l : List α) :
    ((l.map (fun t => if p t then s else t)).filter p).length
      = (l.filter p).length := by
  induction l with
  | nil => rfl
  | cons a l ih =>
    by_cases pa : p a = true
    · simp [List.filter_cons, pa, hs, ih]
    · simp [List.filter_cons, pa, ih]

/-- Claim C7: create-or-update is idempotent.  Applying it twice with
identical inputs leaves the store exactly as after the first call; on an
absent secret the calls are one create then a no-op update and exactly one
secret with that namespaced name exists afterwards; on a present secret both
calls are updates of the same stored object and the number of secrets under
that name never changes — no duplicate is ever created. -/
theorem createOrUpdateSecret_idempotent (cert : Certificate)
    (certPEM keyPEM : List Nat) (store : List Secret) :
    ((createOrUpdateSecret cert certPEM keyPEM
        (createOrUpdateSecret cert certPEM keyPEM store).2).2
      = (createOrUpdateSecret cert certPEM keyPEM store).2) ∧
    (getSecret store cert.metadata.nspace cert.spec.secretName = none →
      (createOrUpdateSecret cert certPEM keyPEM store).1
          = .created (desiredSecret cert certPEM keyPEM) ∧
        (createOrUpdateSecret cert certPEM keyPEM
            (createOrUpdateSecret cert certPEM keyPEM store).2).1
          = .updated (desiredSecret cert certPEM keyPEM) ∧
        countSecrets (createOrUpdateSecret cert certPEM keyPEM store).2
          cert.metadata.nspace cert.spec.secretName = 1) ∧
    (∀ e, getSecret store cert.metadata.nspace cert.spec.secretName = some e →
      (createOrUpdateSecret cert certPEM keyPEM store).1
          = .updated (updSecret cert certPEM keyPEM e) ∧
        countSecrets (createOrUpdateSecret cert certPEM keyPEM store).2
          cert.metadata.nspace cert.spec.secretName
          = countSecrets store cert.metadata.nspace cert.spec.secretName) := by
  have hkeySec := desiredSecret_key cert certPEM keyPEM
  cases hfind : getSecret store cert.metadata.nspace cert.spec.secretName with
  | none =>
    have hnomatch : ∀ t ∈ store,
        secretKeyIs cert.metadata.nspace cert.spec.secretName t = false := by
      intro t ht
      have := List.find?_eq_none.mp hfind t ht
      simpa using this
    have hfirst := createOrUpdateSecret_of_absent cert certPEM keyPEM store hfind
    have hfind2 : getSecret (store ++ [desiredSecret cert certPEM keyPEM])
        cert.metadata.nspace cert.spec.secretName
        = some (desiredSecret cert certPEM keyPEM) := by
      unfold getSecret at hfind ⊢
      rw [find?_append_of_none _ _ hfind]
      exact List.find?_cons_of_pos _ hkeySec
    have hsecond := createOrUpdateSecret_of_present cert certPEM keyPEM
      (store ++ [desiredSecret cert certPEM keyPEM])
      (desiredSecret cert certPEM keyPEM) hfind2
    rw [updSecret_desired] at hsecond
    have hput2 : putSecret (store ++ [desiredSecret cert certPEM keyPEM])
        (desiredSecret cert certPEM keyPEM)
        = store ++ [desiredSecret cert certPEM keyPEM] := by
      have := putSecret_eq_map cert certPEM keyPEM
        (desiredSecret cert certPEM keyPEM) rfl rfl
        (store ++ [desiredSecret cert certPEM keyPEM])
      rw [updSecret_desired] at this
      rw [this, List.map_append, map_replace_id _ _ hnomatch]
      simp [hkeySec]
    refine ⟨?_, fun _ => ⟨?_, ?_, ?_⟩, fun e he => ?_⟩
    · rw [hfirst, hsecond, hput2]
    · rw [hfirst]
    · rw [hfirst, hsecond]
    · rw [hfirst]
      unfold countSecrets
      rw [List.filter_append]
      have hfe : store.filter
          (secretKeyIs cert.metadata.nspace cert.spec.secretName) = [] :=
        List.filter_eq_nil_iff.mpr (by intro t ht; simp [hnomatch t ht])
      simp [hfe, hkeySec]
    · exact absurd he (by simp)
  | some e =>
    have hpe : secretKeyIs cert.metadata.nspace cert.spec.secretName e = true :=
      List.find?_some hfind
    have hkey : e.nspace = cert.metadata.nspace ∧ e.name = cert.spec.secretName := by
      simpa [secretKeyIs] using hpe
    have hpe1 := updSecret_key cert certPEM keyPEM e hpe
    have hkey1 : (updSecret cert certPEM keyPEM e).nspace = cert.metadata.nspace ∧
        (updSecret cert certPEM keyPEM e).name = cert.spec.secretName := by
      simpa [secretKeyIs, updSecret] using hkey
    have hfirst := createOrUpdateSecret_of_present cert certPEM keyPEM store e hfind
    have hmap1 := putSecret_eq_map cert certPEM keyPEM e hkey.1 hkey.2 store
    have hfind2 : getSecret (putSecret store (updSecret cert certPEM keyPEM e))
        cert.metadata.nspace cert.spec.secretName
        = some (updSecret cert certPEM keyPEM e) := by
      rw [hmap1]
      exact find?_map_replace _ _ hpe1 store e hfind
    have hsecond := createOrUpdateSecret_of_present cert certPEM keyPEM
      (putSecret store (updSecret cert certPEM keyPEM e))
      (updSecret cert certPEM keyPEM e) hfind2
    have hupdidem : updSecret cert certPEM keyPEM (updSecret cert certPEM keyPEM e)
        = updSecret cert certPEM keyPEM e := rfl
    rw [hupdidem] at hsecond
    have hmap2 := putSecret_eq_map cert certPEM keyPEM e hkey.1 hkey.2
      (putSecret store (updSecret cert certPEM keyPEM e))
    refine ⟨?_, fun hnone => absurd hnone (by simp), fun e2 he2 => ?_⟩
    · rw [hfirst, hsecond]
      show putSecret (putSecret store (updSecret cert certPEM keyPEM e))
        (updSecret cert certPEM keyPEM e) = putSecret store (updSecret cert certPEM keyPEM e)
      rw [hmap2, hmap1, map_replace_idem]
    · have he2eq : e = e2 := by injection he2
      subst he2eq
      refine ⟨by rw [hfirst], ?_⟩
      rw [hfirst]
      show countSecrets (putSecret store (updSecret cert certPEM keyPEM e)) _ _ = _
      rw [hmap1]
      unfold countSecrets
      exact length_filter_map_replace _ _ hpe1 store

/-- Claim C7 witness: on the empty store the first call creates the secret,
the second is a no-op update, and exactly one secret exists afterwards. -/
theorem createOrUpdateSecret_idempotent_witness :
    getSecret [] certBase.metadata.nspace certBase.spec.secretName = none ∧
      ((createOrUpdateSecret certBase [1] [2] []).1
          = .created (desiredSecret certBase [1] [2]) ∧
        (createOrUpdateSecret certBase [1] [2]
            (createOrUpdateSecret certBase [1] [2] []).2).1
          = .updated (desiredSecret certBase [1] [2]) ∧
        countSecrets (createOrUpdateSecret certBase [1] [2] []).2
          certBase.metadata.nspace certBase.spec.secretName = 1) :=
  ⟨rfl, (createOrUpdateSecret_idempotent certBase [1] [2] []).2.1 rfl⟩

/-! ## Claims about the dependent workload correlator -/

lemma restartDeployments_eq (secretName ts : String) (updFails : Deployment → Bool) :
    ∀ deps : List Deployment,
      restartDeployments secretName ts updFails deps
        = (deps.map (fun d =>
            if deploymentUsesSecret d secretName && !updFails d then
              setRestartAnnot d ts
            else d),
           (deps.filter (fun d =>
             deploymentUsesSecret d secretName && !updFails d)).length) := by
  intro deps
  induction deps with
  | nil => rfl
  | cons d rest ih =>
    simp only [restartDeployments, ih]
    by_cases hu : deploymentUsesSecret d secretName = true
    · by_cases hf : updFails d = true
      · simp [hu, hf, List.filter_cons]
      · simp [hu, hf, List.filter_cons]
    · simp [hu, List.filter_cons]

/-- The two-referencing / one-plain scenario: a workload mounting the secret
as a volume. -/
def volDeploy : Deployment :=
  { name := "web"
    template :=
      { annots := none
        volumes := [{ secret := some { secretName := "myapp-tls" } }]
        containers := [{ envFrom := [], env := [] }] } }

/-- A workload importing the secret as an env block. -/
def envFromDeploy : Deployment :=
  { name := "api"
    template :=
      { annots := some [("team", "payments")]
        volumes := []
        containers :=
          [{ envFrom := [{ secretRef := some { name := "myapp-tls" } }], env := [] }] } }

/-- A workload referencing only a different secret. -/
def plainDeploy : Deployment :=
  { name := "worker"
    template :=
      { annots := some [("team", "payments")]
        volumes := [{ secret := some { secretName := "other-tls" } }]
        containers :=
          [{ envFrom := []
             env := [{ valueFrom := some { secretKeyRef := some { name := "other-tls" } } }] }] } }

/-- Claim C8: with no write failures the correlator annotates exactly the
workloads referencing the secret (volume mount, env block import, or env var
key source), leaves all others untouched, and returns the number of
referencing workloads; in the three-workload scenario the two referencing
`myapp-tls` are annotated, the third keeps its pod-template annotations, and
the count is 2. -/
theorem restartDeployments_updates_exactly_referencing (secretName ts : String)
    (deps : List Deployment) :
    (restartDeployments secretName ts (fun _ => false) deps).1
        = deps.map (fun d =>
            if deploymentUsesSecret d secretName then setRestartAnnot d ts else d) ∧
    (restartDeployments secretName ts (fun _ => false) deps).2
        = (deps.filter (fun d => deploymentUsesSecret d secretName)).length ∧
    restartDeployments "myapp-tls" ts (fun _ => false)
        [volDeploy, envFromDeploy, plainDeploy]
      = ([setRestartAnnot volDeploy ts, setRestartAnnot envFromDeploy ts, plainDeploy],
         2) ∧
    plainDeploy.template.annots = some [("team", "payments")] := by
  refine ⟨?_, ?_, ?_, rfl⟩
  · rw [restartDeployments_eq]
    simp
  · rw [restartDeployments_eq]
    simp
  · rfl

lemma reconcile_outcome_ignores_correlator (cert : Certificate) (env : ReconcileEnv)
    (g : Deployment → Bool) (lf : Bool) :
    (Reconcile cert { env with updFails := g, listFails := lf }).2
      = (Reconcile cert env).2 := by
  unfold Reconcile
  dsimp only
  repeat' split
  all_goals rfl

/-- Claim C9: a per-workload restart write failure does not abort the loop —
every later matching workload is still annotated (the output is the pointwise
map over all deployments), the count reflects only the successfully updated
workloads, and the reconciliation outcome is entirely independent of the
correlator's failure oracles, so a correlator failure never makes the
invocation return an error. -/
theorem restartDeployments_failure_isolation (secretName ts : String)
    (updFails : Deployment → Bool) (deps : List Deployment)
    (cert : Certificate) (env : ReconcileEnv) (g : Deployment → Bool) (lf : Bool) :
    (restartDeployments secretName ts updFails deps).1
        = deps.map (fun d =>
            if deploymentUsesSecret d secretName && !updFails d then
              setRestartAnnot d ts
            else d) ∧
    (restartDeployments secretName ts updFails deps).2
        = (deps.filter (fun d =>
            deploymentUsesSecret d secretName && !updFails d)).length ∧
    (Reconcile cert { env with updFails := g, listFails := lf }).2
        = (Reconcile cert env).2 := by
  refine ⟨?_, ?_, reconcile_outcome_ignores_correlator cert env g lf⟩
  · rw [restartDeployments_eq]
  · rw [restartDeployments_eq]

/-! ## Claims about finalizer and deletion handling -/

lemma containsFinalizer_addFinalizer (cert : Certificate) :
    containsFinalizer (addFinalizer cert) = true := by
  simp [containsFinalizer, addFinalizer, List.contains_eq_any_beq]

lemma containsFinalizer_removeFinalizer (cert : Certificate) :
    containsFinalizer (removeFinalizer cert) = false := by
  simp [containsFinalizer, removeFinalizer, List.contains_eq_any_beq]

/-- Claim C6: reconciling a certificate that has the finalizer present and a
deletion timestamp set performs exactly one store write — the certificate
update removing the finalizer — with no secret, status or deployment write,
and terminates successfully with the empty result. -/
theorem reconcile_deletion_single_finalizer_removal (cert : Certificate)
    (env : ReconcileEnv) (hdel : cert.metadata.deletionTimestamp.isSome = true)
    (hfin : containsFinalizer cert = true) :
    Reconcile cert env
      = ([Effect.certUpdate (removeFinalizer cert)],
         .ok { requeue := false, requeueAfter := 0 }) ∧
      containsFinalizer (removeFinalizer cert) = false := by
  refine ⟨?_, containsFinalizer_removeFinalizer cert⟩
  unfold Reconcile
  simp [hfin, hdel]

/-- Claim C6 witness: the concrete deleting certificate carrying the
finalizer. -/
theorem reconcile_deletion_single_finalizer_removal_witness :
    certDelFin.metadata.deletionTimestamp.isSome = true ∧
      containsFinalizer certDelFin = true ∧
      (Reconcile certDelFin envBase
          = ([Effect.certUpdate (removeFinalizer certDelFin)],
             .ok { requeue := false, requeueAfter := 0 }) ∧
        containsFinalizer (removeFinalizer certDelFin) = false) :=
  ⟨by decide, by decide,
    reconcile_deletion_single_finalizer_removal certDelFin envBase
      (by decide) (by decide)⟩

/-- Claim C5 (amended): the finalizer-add block runs before the deletion
check, so an invocation on a certificate with deletion requested and the
finalizer absent performs two certificate writes — one adding the finalizer,
one removing it again — rather than none, terminating successfully with the
finalizer absent again. -/
theorem reconcile_deleting_without_finalizer_two_updates (cert : Certificate)
    (env : ReconcileEnv) (hdel : cert.metadata.deletionTimestamp.isSome = true)
    (hfin : containsFinalizer cert = false) :
    Reconcile cert env
      = ([Effect.certUpdate (addFinalizer cert),
          Effect.certUpdate (removeFinalizer (addFinalizer cert))],
         .ok { requeue := false, requeueAfter := 0 }) ∧
      containsFinalizer (removeFinalizer (addFinalizer cert)) = false := by
  refine ⟨?_, containsFinalizer_removeFinalizer (addFinalizer cert)⟩
  unfold Reconcile
  have hdel2 : (addFinalizer cert).metadata.deletionTimestamp.isSome = true := hdel
  simp [hfin, hdel2, containsFinalizer_addFinalizer]

/-- Claim C5 counterexample: on a concrete certificate with deletion
requested and no finalizer the invocation issues two certificate writes
(finalizer addition, then removal) — not zero, as the claim requires. -/
theorem reconcile_deleting_absent_finalizer_writes :
    Reconcile certDelNoFin envBase
      = ([Effect.certUpdate (addFinalizer certDelNoFin),
          Effect.certUpdate (removeFinalizer (addFinalizer certDelNoFin))],
         .ok { requeue := false, requeueAfter := 0 }) ∧
      (Reconcile certDelNoFin envBase).1 ≠ [] := by decide

/-- Claim C5 witness: the same concrete deleting certificate without the
finalizer, through the general theorem. -/
theorem reconcile_deleting_without_finalizer_two_updates_witness :
    certDelNoFin.metadata.deletionTimestamp.isSome = true ∧
      containsFinalizer certDelNoFin = false ∧
      (Reconcile certDelNoFin envBase
          = ([Effect.certUpdate (addFinalizer certDelNoFin),
              Effect.certUpdate (removeFinalizer (addFinalizer certDelNoFin))],
             .ok { requeue := false, requeueAfter := 0 }) ∧
        containsFinalizer (removeFinalizer (addFinalizer certDelNoFin)) = false) :=
  ⟨by decide, by decide,
    reconcile_deleting_without_finalizer_two_updates certDelNoFin envBase
      (by decide) (by decide)⟩

end CertOp
